import Mathlib

/-!
Verification of the PTY orchestrator (orchestrator_enhanced.py).

We shallowly embed the text-processing pipeline and the control flow of the
orchestration loop over lists of characters.  Python strings are modelled as
List Char; Python's str.strip / str.lower are modelled on their ASCII
behaviour (plus NBSP and NEL for strip), which covers every character class
the program manipulates.  Regular-expression substitution and search are
embedded as executable recursive functions whose backtracking order follows
the Python re engine; wherever the character classes of adjacent regex parts
are disjoint the greedy/lazy scan needs no further backtracking, and this is
noted at each definition.
-/

namespace Orchestrator

/-- Coerce a Lean string literal to the List Char representation. -/
def chars (s : String) : List Char := s.data

/-- Python whitespace for str.strip and the regex class backslash-s:
ASCII whitespace plus NEL and NBSP (the only non-ASCII whitespace the
program can meet through its own processing). -/
def isPySpace (c : Char) : Bool :=
  c = ' ' ∨ c = '\t' ∨ c = '\n' ∨ c = '\r' ∨ c = '\x0b' ∨ c = '\x0c' ∨
  c = '\x85' ∨ c = '\xa0'

/-- Python str.strip(): drop whitespace from both ends. -/
def pyStrip (l : List Char) : List Char :=
  ((l.dropWhile isPySpace).reverse.dropWhile isPySpace).reverse

/-- Python str.lower(), ASCII letters (all strings compared in the program
are ASCII apart from box-drawing and ellipsis characters, which lower()
leaves unchanged). -/
def asciiLower (c : Char) : Char :=
  if 'A' ≤ c ∧ c ≤ 'Z' then Char.ofNat (c.toNat + 32) else c

/-- Python str.lower() on a whole string. -/
def pyLower (l : List Char) : List Char := l.map asciiLower

/-- Python substring test: containsSub needle hay decides needle in hay. -/
def containsSub (needle : List Char) : List Char → Bool
  | [] => needle.isEmpty
  | c :: rest => needle.isPrefixOf (c :: rest) || containsSub needle rest

/-- Everything after the first occurrence of needle, i.e. parts[1] of
Python's hay.split(needle, 1) when needle occurs in hay. -/
def afterFirst (needle : List Char) : List Char → List Char
  | [] => []
  | c :: rest =>
    if needle.isPrefixOf (c :: rest) then List.drop needle.length (c :: rest)
    else afterFirst needle rest

/-! ## Output sanitizer (read_output, orchestrator_enhanced.py lines 337-351)

The five steps, in source order:
  1. re.sub removing CSI sequences  ESC [ params* intermediates* final
  2. re.sub removing OSC sequences  ESC ] ... (BEL or ESC backslash)
  3. re.sub removing charset selects  ESC ( X / ESC ) X
  4. str.replace removing orphan ESC = and ESC >
  5. CR/LF normalization: CRLF -> LF then CR -> LF.

re.sub scans left to right; at a failed position it advances one character.
-/

/-- Character class of the CSI parameter part of the pattern: digits, the
semicolon and the question mark. -/
def isCsiParam (c : Char) : Bool := ('0' ≤ c ∧ c ≤ '9') ∨ c = ';' ∨ c = '?'

/-- CSI intermediate bytes: the range from space to the solidus. -/
def isCsiInter (c : Char) : Bool := ' ' ≤ c ∧ c ≤ '/'

/-- CSI final bytes: the range from the commercial at to the tilde. -/
def isCsiFinal (c : Char) : Bool := '@' ≤ c ∧ c ≤ '~'

/-- Match the tail of a CSI sequence (after ESC [): params* inter* final.
The three classes are pairwise disjoint, so the greedy scan is exact and
the Python engine never backtracks here.  Returns the rest after the match. -/
def matchCsiTail (l : List Char) : Option (List Char) :=
  match (l.dropWhile isCsiParam).dropWhile isCsiInter with
  | c :: rest => if isCsiFinal c then some rest else none
  | [] => none

/-- The CSI-removing re.sub, fuelled for structural recursion: every step
consumes at least one character and one unit of fuel, so fuel equal to the
length of the input (supplied by csiSub below) never runs out.  A failed
match at an ESC [ position makes the engine advance one character; since a
match cannot start at the bracket, advancing twice is the same, which the
failed-match arm hard-codes. -/
def csiSubGo : Nat → List Char → List Char
  | _, [] => []
  | 0, l => l
  | fuel + 1, c :: rest =>
    if c = '\x1b' then
      match rest with
      | '[' :: rest2 =>
        match matchCsiTail rest2 with
        | some r => csiSubGo fuel r
        | none => '\x1b' :: '[' :: csiSubGo fuel rest2
      | _ => c :: csiSubGo fuel rest
    else c :: csiSubGo fuel rest

/-- re.sub removing CSI sequences (step 1 of the sanitizer). -/
def csiSub (l : List Char) : List Char := csiSubGo l.length l

/-- Match the tail of an OSC sequence (after ESC ]): any run of characters
other than BEL and ESC, then either BEL or ESC backslash.  The run class
excludes both terminator leads, so the greedy scan is exact. -/
def matchOscTail (l : List Char) : Option (List Char) :=
  match l.dropWhile (fun c => ¬ (c = '\x07' ∨ c = '\x1b')) with
  | [] => none
  | c :: rest =>
    if c = '\x07' then some rest
    else if c = '\x1b' then
      match rest with
      | [] => none
      | d :: rest2 => if d = '\\' then some rest2 else none
    else none

/-- The OSC-removing re.sub, fuelled as csiSubGo; the failed-match arm
advances past ESC ] since no match can start at the closing bracket. -/
def oscSubGo : Nat → List Char → List Char
  | _, [] => []
  | 0, l => l
  | fuel + 1, c :: rest =>
    if c = '\x1b' then
      match rest with
      | ']' :: rest2 =>
        match matchOscTail rest2 with
        | some r => oscSubGo fuel r
        | none => '\x1b' :: ']' :: oscSubGo fuel rest2
      | _ => c :: oscSubGo fuel rest
    else c :: oscSubGo fuel rest

/-- re.sub removing OSC sequences (step 2 of the sanitizer). -/
def oscSub (l : List Char) : List Char := oscSubGo l.length l

/-- Alphanumeric class of the charset-select pattern. -/
def isAlnum (c : Char) : Bool :=
  ('0' ≤ c ∧ c ≤ '9') ∨ ('A' ≤ c ∧ c ≤ 'Z') ∨ ('a' ≤ c ∧ c ≤ 'z')

/-- The charset-select re.sub: removes ESC ( X and ESC ) X with X
alphanumeric (a fixed three-character pattern).  On a failed match the
engine advances one character past the ESC and rescans from there. -/
def charsetSubGo : Nat → List Char → List Char
  | _, [] => []
  | 0, l => l
  | fuel + 1, c :: rest =>
    if c = '\x1b' then
      match rest with
      | d :: e :: rest2 =>
        if (d = '(' ∨ d = ')') ∧ isAlnum e then charsetSubGo fuel rest2
        else '\x1b' :: charsetSubGo fuel rest
      | _ => c :: charsetSubGo fuel rest
    else c :: charsetSubGo fuel rest

/-- re.sub removing charset selects (step 3 of the sanitizer). -/
def charsetSub (l : List Char) : List Char := charsetSubGo l.length l

/-- str.replace removing every occurrence of ESC =, scanning left to right
without rescanning the text it has already produced. -/
def replEscEqGo : Nat → List Char → List Char
  | _, [] => []
  | 0, l => l
  | fuel + 1, c :: rest =>
    if c = '\x1b' then
      match rest with
      | d :: rest2 =>
        if d = '=' then replEscEqGo fuel rest2
        else '\x1b' :: replEscEqGo fuel rest
      | [] => ['\x1b']
    else c :: replEscEqGo fuel rest

/-- str.replace removing ESC = (first half of step 4). -/
def replEscEq (l : List Char) : List Char := replEscEqGo l.length l

/-- str.replace removing every occurrence of ESC >. -/
def replEscGtGo : Nat → List Char → List Char
  | _, [] => []
  | 0, l => l
  | fuel + 1, c :: rest =>
    if c = '\x1b' then
      match rest with
      | d :: rest2 =>
        if d = '>' then replEscGtGo fuel rest2
        else '\x1b' :: replEscGtGo fuel rest
      | [] => ['\x1b']
    else c :: replEscGtGo fuel rest

/-- str.replace removing ESC > (second half of step 4). -/
def replEscGt (l : List Char) : List Char := replEscGtGo l.length l

/-- str.replace turning every CR LF pair into LF. -/
def replCRLFGo : Nat → List Char → List Char
  | _, [] => []
  | 0, l => l
  | fuel + 1, c :: rest =>
    if c = '\r' then
      match rest with
      | d :: rest2 =>
        if d = '\n' then '\n' :: replCRLFGo fuel rest2
        else '\r' :: replCRLFGo fuel rest
      | [] => ['\r']
    else c :: replCRLFGo fuel rest

/-- str.replace turning CR LF into LF (first half of step 5). -/
def replCRLF (l : List Char) : List Char := replCRLFGo l.length l

/-- str.replace turning every remaining CR into LF. -/
def replCR (l : List Char) : List Char :=
  l.map (fun c => if c = '\r' then '\n' else c)

/-- The full sanitizer applied by read_output to non-empty collected text
(lines 341-349), steps in source order. -/
def sanitizeOutput (l : List Char) : List Char :=
  replCR (replCRLF (replEscGt (replEscEq (charsetSub (oscSub (csiSub l))))))

/-! Fixpoint lemmas: each escape-stripping step is the identity on strings
free of the ESC character, and both CR steps are the identity on strings
free of CR; the sanitizer never emits CR. -/

theorem csiSubGo_of_no_esc :
    ∀ (fuel : Nat) (l : List Char), '\x1b' ∉ l → l.length ≤ fuel →
      csiSubGo fuel l = l := by
  intro fuel
  induction fuel with
  | zero =>
    intro l _ hlen
    cases l with
    | nil => rfl
    | cons c rest => simp at hlen
  | succ fuel ih =>
    intro l hesc hlen
    cases l with
    | nil => rfl
    | cons c rest =>
      have hc : ¬ c = '\x1b' := fun hc => hesc (hc ▸ List.mem_cons_self c rest)
      have hrest : '\x1b' ∉ rest := fun hm => hesc (List.mem_cons_of_mem c hm)
      simp only [csiSubGo, if_neg hc, List.cons.injEq, true_and]
      exact ih rest hrest (by simp at hlen; omega)

theorem csiSub_of_no_esc {l : List Char} (h : '\x1b' ∉ l) : csiSub l = l :=
  csiSubGo_of_no_esc l.length l h (Nat.le_refl _)

theorem oscSubGo_of_no_esc :
    ∀ (fuel : Nat) (l : List Char), '\x1b' ∉ l → l.length ≤ fuel →
      oscSubGo fuel l = l := by
  intro fuel
  induction fuel with
  | zero =>
    intro l _ hlen
    cases l with
    | nil => rfl
    | cons c rest => simp at hlen
  | succ fuel ih =>
    intro l hesc hlen
    cases l with
    | nil => rfl
    | cons c rest =>
      have hc : ¬ c = '\x1b' := fun hc => hesc (hc ▸ List.mem_cons_self c rest)
      have hrest : '\x1b' ∉ rest := fun hm => hesc (List.mem_cons_of_mem c hm)
      simp only [oscSubGo, if_neg hc, List.cons.injEq, true_and]
      exact ih rest hrest (by simp at hlen; omega)

theorem oscSub_of_no_esc {l : List Char} (h : '\x1b' ∉ l) : oscSub l = l :=
  oscSubGo_of_no_esc l.length l h (Nat.le_refl _)

theorem charsetSubGo_of_no_esc :
    ∀ (fuel : Nat) (l : List Char), '\x1b' ∉ l → l.length ≤ fuel →
      charsetSubGo fuel l = l := by
  intro fuel
  induction fuel with
  | zero =>
    intro l _ hlen
    cases l with
    | nil => rfl
    | cons c rest => simp at hlen
  | succ fuel ih =>
    intro l hesc hlen
    cases l with
    | nil => rfl
    | cons c rest =>
      have hc : ¬ c = '\x1b' := fun hc => hesc (hc ▸ List.mem_cons_self c rest)
      have hrest : '\x1b' ∉ rest := fun hm => hesc (List.mem_cons_of_mem c hm)
      simp only [charsetSubGo, if_neg hc, List.cons.injEq, true_and]
      exact ih rest hrest (by simp at hlen; omega)

theorem charsetSub_of_no_esc {l : List Char} (h : '\x1b' ∉ l) :
    charsetSub l = l :=
  charsetSubGo_of_no_esc l.length l h (Nat.le_refl _)

theorem replEscEqGo_of_no_esc :
    ∀ (fuel : Nat) (l : List Char), '\x1b' ∉ l → l.length ≤ fuel →
      replEscEqGo fuel l = l := by
  intro fuel
  induction fuel with
  | zero =>
    intro l _ hlen
    cases l with
    | nil => rfl
    | cons c rest => simp at hlen
  | succ fuel ih =>
    intro l hesc hlen
    cases l with
    | nil => rfl
    | cons c rest =>
      have hc : ¬ c = '\x1b' := fun hc => hesc (hc ▸ List.mem_cons_self c rest)
      have hrest : '\x1b' ∉ rest := fun hm => hesc (List.mem_cons_of_mem c hm)
      simp only [replEscEqGo, if_neg hc, List.cons.injEq, true_and]
      exact ih rest hrest (by simp at hlen; omega)

theorem replEscEq_of_no_esc {l : List Char} (h : '\x1b' ∉ l) :
    replEscEq l = l :=
  replEscEqGo_of_no_esc l.length l h (Nat.le_refl _)

theorem replEscGtGo_of_no_esc :
    ∀ (fuel : Nat) (l : List Char), '\x1b' ∉ l → l.length ≤ fuel →
      replEscGtGo fuel l = l := by
  intro fuel
  induction fuel with
  | zero =>
    intro l _ hlen
    cases l with
    | nil => rfl
    | cons c rest => simp at hlen
  | succ fuel ih =>
    intro l hesc hlen
    cases l with
    | nil => rfl
    | cons c rest =>
      have hc : ¬ c = '\x1b' := fun hc => hesc (hc ▸ List.mem_cons_self c rest)
      have hrest : '\x1b' ∉ rest := fun hm => hesc (List.mem_cons_of_mem c hm)
      simp only [replEscGtGo, if_neg hc, List.cons.injEq, true_and]
      exact ih rest hrest (by simp at hlen; omega)

theorem replEscGt_of_no_esc {l : List Char} (h : '\x1b' ∉ l) :
    replEscGt l = l :=
  replEscGtGo_of_no_esc l.length l h (Nat.le_refl _)

theorem replCRLFGo_of_no_cr :
    ∀ (fuel : Nat) (l : List Char), '\r' ∉ l → l.length ≤ fuel →
      replCRLFGo fuel l = l := by
  intro fuel
  induction fuel with
  | zero =>
    intro l _ hlen
    cases l with
    | nil => rfl
    | cons c rest => simp at hlen
  | succ fuel ih =>
    intro l hcr hlen
    cases l with
    | nil => rfl
    | cons c rest =>
      have hc : ¬ c = '\r' := fun hc => hcr (hc ▸ List.mem_cons_self c rest)
      have hrest : '\r' ∉ rest := fun hm => hcr (List.mem_cons_of_mem c hm)
      simp only [replCRLFGo, if_neg hc, List.cons.injEq, true_and]
      exact ih rest hrest (by simp at hlen; omega)

theorem replCRLF_of_no_cr {l : List Char} (h : '\r' ∉ l) : replCRLF l = l :=
  replCRLFGo_of_no_cr l.length l h (Nat.le_refl _)

theorem replCR_of_no_cr {l : List Char} (h : '\r' ∉ l) : replCR l = l := by
  induction l with
  | nil => rfl
  | cons c rest ih =>
    have hc : ¬ c = '\r' := fun hc => h (hc ▸ List.mem_cons_self c rest)
    have hrest := ih (fun hm => h (List.mem_cons_of_mem c hm))
    simp only [replCR, List.map_cons, if_neg hc, List.cons.injEq, true_and]
    simpa [replCR] using hrest

theorem replCR_no_cr (l : List Char) : '\r' ∉ replCR l := by
  intro hm
  simp only [replCR, List.mem_map] at hm
  obtain ⟨a, _, ha⟩ := hm
  by_cases h : a = '\r'
  · simp [h] at ha
  · simp [h] at ha

theorem sanitizeOutput_no_cr (l : List Char) : '\r' ∉ sanitizeOutput l :=
  replCR_no_cr _

/-- The sanitizer fixes every string free of ESC and CR. -/
theorem sanitizeOutput_fix {l : List Char} (hesc : '\x1b' ∉ l)
    (hcr : '\r' ∉ l) : sanitizeOutput l = l := by
  unfold sanitizeOutput
  rw [csiSub_of_no_esc hesc, oscSub_of_no_esc hesc, charsetSub_of_no_esc hesc,
    replEscEq_of_no_esc hesc, replEscGt_of_no_esc hesc,
    replCRLF_of_no_cr hcr, replCR_of_no_cr hcr]

/-! ## Claim C3: idempotence of the sanitizer -/

/-- C3, counterexample.  The sanitizer is not idempotent: removing the CSI
match inside ESC [ ESC [ A A splices together a fresh CSI sequence ESC [ A,
which only a second pass removes.  This refutes the claim that
sanitize(sanitize(x)) = sanitize(x) for every input x. -/
theorem c3_sanitizer_not_idempotent :
    sanitizeOutput (sanitizeOutput (chars "\x1b[\x1b[AA")) ≠
      sanitizeOutput (chars "\x1b[\x1b[AA") := by decide

/-- C3, amended.  The sanitizer is idempotent on every input whose sanitized
form is free of the ESC character: the first pass already removed all
carriage returns, and a second pass fixes any ESC-free, CR-free string. -/
theorem c3_sanitizer_idempotent_on_clean (l : List Char)
    (h : '\x1b' ∉ sanitizeOutput l) :
    sanitizeOutput (sanitizeOutput l) = sanitizeOutput l :=
  sanitizeOutput_fix h (sanitizeOutput_no_cr l)

/-- C3, witness for the amended theorem at a concrete input. -/
theorem c3_sanitizer_idempotent_on_clean_witness :
    '\x1b' ∉ sanitizeOutput (chars "red\r\nblue") ∧
      sanitizeOutput (sanitizeOutput (chars "red\r\nblue")) =
        sanitizeOutput (chars "red\r\nblue") :=
  ⟨by decide, c3_sanitizer_idempotent_on_clean (chars "red\r\nblue") (by decide)⟩

/-! ## Line splitting and joining (Python str.split / str.join on LF) -/

/-- Python s.split(LF): always at least one (possibly empty) piece. -/
def splitOnNL : List Char → List (List Char)
  | [] => [[]]
  | c :: rest =>
    if c = '\n' then [] :: splitOnNL rest
    else
      match splitOnNL rest with
      | line :: more => (c :: line) :: more
      | [] => [[c]]

/-- Python LF.join(lines). -/
def joinNL (lines : List (List Char)) : List Char :=
  match lines with
  | [] => []
  | line :: rest => rest.foldl (fun acc l => acc ++ '\n' :: l) line

/-! ## Marker parser and final-result extraction
(_is_complete line 657, _extract_final_result line 661,
_parse_agent_call line 637) -/

/-- The literal completion marker. -/
def cMark : List Char := chars "[COMPLETE]"

/-- The literal alternative completion marker. -/
def dMark : List Char := chars "[DONE]"

/-- _is_complete: either completion marker occurs in the text. -/
def isComplete (l : List Char) : Bool :=
  containsSub cMark l || containsSub dMark l

/-- _extract_final_result.  When a marker occurs, output.split(marker, 1)
always has two parts, so the guard len(parts) > 1 always holds and the
function returns the trimmed text after the first occurrence; with
no marker it returns the input unchanged. -/
def extractFinalResult (l : List Char) : List Char :=
  if containsSub cMark l then pyStrip (afterFirst cMark l)
  else if containsSub dMark l then pyStrip (afterFirst dMark l)
  else l

/-- Group 1 of the delegation regex: the alternation
claude-BACKSLASH-d-plus, codex, gemini, tried in that order.  The three
alternatives have pairwise incompatible leading literals, so at most one
can start at a given position; for the first, the digit run is greedy and
the following colon is not a digit, so no backtracking can help. -/
def matchAgentName (l : List Char) : Option (List Char × List Char) :=
  if (chars "claude-").isPrefixOf l then
    let after := l.drop 7
    let digits := after.takeWhile (fun c => '0' ≤ c ∧ c ≤ '9')
    if digits.isEmpty then none
    else some (chars "claude-" ++ digits, after.drop digits.length)
  else if (chars "codex").isPrefixOf l then some (chars "codex", l.drop 5)
  else if (chars "gemini").isPrefixOf l then some (chars "gemini", l.drop 6)
  else none

/-- The lookahead of the delegation regex at a given remainder of the
input: LF-at, LF-bracket, or dollar.  Without re.MULTILINE the dollar
matches at the end of the string and also just before a final LF. -/
def lookaheadOk (remaining : List Char) : Bool :=
  (chars "\n@").isPrefixOf remaining || (chars "\n[").isPrefixOf remaining ||
  remaining = [] || remaining = ['\n']

/-- The lazy dot-plus of the delegation regex under re.DOTALL: consume one
character at a time (any character, including LF) and stop at the first
position where the lookahead holds.  Returns the consumed group. -/
def lazyDot (acc : List Char) : List Char → Option (List Char)
  | [] => none
  | c :: rest =>
    if lookaheadOk rest then some (acc ++ [c]) else lazyDot (acc ++ [c]) rest

/-- The backslash-s-star before the task group, greedy with backtracking:
try consuming k whitespace characters for k from the maximal run length
down to zero, and for each k let the lazy group run.  The first success in
this engine order is the match. -/
def tryTaskAux (tail : List Char) : Nat → Option (List Char)
  | 0 => lazyDot [] tail
  | k + 1 =>
    match lazyDot [] (tail.drop (k + 1)) with
    | some g => some g
    | none => tryTaskAux tail k

/-- Match the part of the delegation regex after the colon, returning the
raw group-2 text. -/
def tryTaskFrom (tail : List Char) : Option (List Char) :=
  tryTaskAux tail (tail.takeWhile isPySpace).length

/-- One attempt of the whole delegation pattern at the current position. -/
def matchCallAt (l : List Char) : Option (List Char × List Char) :=
  match l with
  | '@' :: rest =>
    match matchAgentName rest with
    | some (name, rest2) =>
      match rest2 with
      | ':' :: rest3 =>
        match tryTaskFrom rest3 with
        | some task => some (name, task)
        | none => none
      | _ => none
    | none => none
  | _ => none

/-- _parse_agent_call: re.search takes the leftmost successful position;
the (target, task) pair has the task trimmed. -/
def parseAgentCall : List Char → Option (List Char × List Char)
  | [] => none
  | c :: rest =>
    match matchCallAt (c :: rest) with
    | some (name, task) => some (name, pyStrip task)
    | none => parseAgentCall rest

/-! ## Line filter (_clean_output_lines, lines 1056-1125) -/

/-- The default noise keyword list, verbatim from the source (the source
set contains the box-drawing dash twice; the duplicate is dropped by list
semantics here since membership is all that is ever used). -/
def noiseKeywords : List (List Char) :=
  [chars "? for shortcuts", chars "thinking on",
   chars "approaching weekly limit", chars "ctrl-g to edit prompt in vi",
   chars "ctrl+o to show thinking", chars "billowing…", chars "marinating…",
   chars "thinking…", chars "∙ billowing", chars "∙ marinating",
   chars "thought for", chars "esc to interrupt", chars "tab to toggle",
   chars "weekly limit", chars "token", chars "bonjour claude"]

/-- The NBSP-to-space replacement applied to each raw line before
trimming. -/
def nbspToSpace (l : List Char) : List Char :=
  l.map (fun c => if c = '\xa0' then ' ' else c)

/-- Characters of which divider lines consist. -/
def isDividerChar (c : Char) : Bool :=
  c = '─' ∨ c = ' ' ∨ c = '-' ∨ c = '·' ∨ c = '—'

/-- The agent-prompt branch of the filter: when the line starts with the
label followed by a greater-than sign, drop it if the stripped tail is
empty or echoes the command, otherwise continue with the tail. -/
def promptAdjust (command agentLabel normalized : List Char) :
    Option (List Char) :=
  if (agentLabel ++ ['>']).isPrefixOf normalized then
    let tail := pyStrip (normalized.drop (agentLabel.length + 1))
    if tail = [] ∨ tail = command then none else some tail
  else some normalized

/-- The greater-than branch: a line starting with the sign is dropped when
the stripped remainder is the command or empty (the line itself is kept
unchanged otherwise). -/
def gtSkip (command n : List Char) : Bool :=
  if ['>'].isPrefixOf n then
    let remaining := pyStrip (n.drop 1)
    remaining = command ∨ remaining = []
  else false

/-- The per-line decision of _clean_output_lines after blank-line removal:
returns the line to keep (possibly rewritten by the prompt branch) or none
when the line is filtered out.  Checks appear in source order: echo,
bare prompt, prompt prefix, greater-than echo, divider, noise keywords. -/
def keepLine (command agentLabel normalized : List Char) :
    Option (List Char) :=
  if normalized = command then none
  else if normalized = ['>'] ∨ normalized = agentLabel ++ ['>'] then none
  else
    match promptAdjust command agentLabel normalized with
    | none => none
    | some n =>
      if gtSkip command n then none
      else if n.all isDividerChar then none
      else if noiseKeywords.any (fun kw => containsSub kw (pyLower n)) then
        none
      else some n

/-- The fold of _clean_output_lines over the lines, carrying the seen set
for duplicate removal. -/
def cleanAux (command agentLabel : List Char) :
    List (List Char) → List (List Char) → List (List Char)
  | _, [] => []
  | seen, raw :: rest =>
    if raw = [] then cleanAux command agentLabel seen rest
    else if pyStrip (nbspToSpace raw) = [] then
      cleanAux command agentLabel seen rest
    else
      match keepLine command agentLabel (pyStrip (nbspToSpace raw)) with
      | none => cleanAux command agentLabel seen rest
      | some n =>
        if seen.contains n then cleanAux command agentLabel seen rest
        else n :: cleanAux command agentLabel (n :: seen) rest

/-- _clean_output_lines(command, lines, agent_label). -/
def cleanOutputLines (command : List Char) (lines : List (List Char))
    (agentLabel : List Char) : List (List Char) :=
  cleanAux command agentLabel [] lines

/-! ## Claim C2: final-result extraction -/

/-- The first occurrence of a non-empty needle splits the haystack, no
occurrence lies in the part before it, and afterFirst returns the part
after it. -/
theorem containsSub_decomp {needle : List Char} (hne : needle ≠ [])
    {l : List Char} (h : containsSub needle l = true) :
    ∃ a b, l = a ++ needle ++ b ∧ containsSub needle a = false ∧
      afterFirst needle l = b := by
  induction l with
  | nil =>
    rw [containsSub] at h
    exact absurd (List.isEmpty_iff.mp h) hne
  | cons c rest ih =>
    rw [containsSub] at h
    by_cases hp : needle.isPrefixOf (c :: rest) = true
    · have hpre : needle <+: c :: rest := List.isPrefixOf_iff_prefix.mp hp
      obtain ⟨b, hb⟩ := hpre
      refine ⟨[], b, by simpa using hb.symm, ?_, ?_⟩
      · rw [containsSub]
        simp [List.isEmpty_iff, hne]
      · rw [afterFirst, if_pos hp, ← hb, List.drop_left]
    · have hr : containsSub needle rest = true := by
        rw [Bool.or_eq_true] at h
        exact h.resolve_left hp
      obtain ⟨a, b, heq, hca, haf⟩ := ih hr
      have hp2 : needle.isPrefixOf (c :: a) = false := by
        rw [Bool.eq_false_iff]
        intro hcon
        apply hp
        have hpre2 : needle <+: c :: a := List.isPrefixOf_iff_prefix.mp hcon
        have hchain : (c :: a) <+: c :: rest := by
          refine ⟨needle ++ b, ?_⟩
          rw [heq]
          simp
        exact List.isPrefixOf_iff_prefix.mpr (hpre2.trans hchain)
      refine ⟨c :: a, b, by simp [heq], ?_, ?_⟩
      · rw [containsSub, hp2, hca]
        rfl
      · rw [afterFirst, if_neg hp, haf]

/-- C2, counterexample.  For the cleaned reply where nothing follows the
completion marker, _extract_final_result returns the empty string, not the
full cleaned reply as the claim states: split produces two parts whenever
the marker occurs, so the code returns the trimmed (empty) tail. -/
theorem c2_no_tail_gives_empty :
    extractFinalResult (chars "real answer\n[COMPLETE]") = [] ∧
      chars "real answer\n[COMPLETE]" ≠ [] := by decide

/-- C2, amended.  If [COMPLETE] occurs, the final result is everything
after its first occurrence, trimmed; otherwise, if [DONE] occurs, the
final result is everything after its first occurrence, trimmed (so the
result is empty, not the full reply, when nothing follows the marker);
with neither marker the reply itself is returned. -/
theorem c2_extract_after_first_marker (l : List Char) :
    (containsSub cMark l = true →
      ∃ a b, l = a ++ cMark ++ b ∧ containsSub cMark a = false ∧
        extractFinalResult l = pyStrip b) ∧
    (containsSub cMark l = false → containsSub dMark l = true →
      ∃ a b, l = a ++ dMark ++ b ∧ containsSub dMark a = false ∧
        extractFinalResult l = pyStrip b) ∧
    (containsSub cMark l = false → containsSub dMark l = false →
      extractFinalResult l = l) := by
  refine ⟨?_, ?_, ?_⟩
  · intro h
    obtain ⟨a, b, heq, hca, haf⟩ := containsSub_decomp (by decide) h
    exact ⟨a, b, heq, hca, by rw [extractFinalResult, if_pos h, haf]⟩
  · intro hc h
    obtain ⟨a, b, heq, hca, haf⟩ := containsSub_decomp (by decide) h
    exact ⟨a, b, heq, hca,
      by rw [extractFinalResult, if_neg (by simp [hc]), if_pos h, haf]⟩
  · intro hc hd
    rw [extractFinalResult, if_neg (by simp [hc]), if_neg (by simp [hd])]

/-- C2, witness for the amended theorem at a concrete input. -/
theorem c2_extract_after_first_marker_witness :
    containsSub cMark (chars "ok [COMPLETE] rest") = true ∧
      (∃ a b, chars "ok [COMPLETE] rest" = a ++ cMark ++ b ∧
        containsSub cMark a = false ∧
        extractFinalResult (chars "ok [COMPLETE] rest") = pyStrip b) :=
  ⟨by decide,
    (c2_extract_after_first_marker (chars "ok [COMPLETE] rest")).1 (by decide)⟩

/-! ## Noise-filter lemmas (_clean_output_lines) -/

/-- Any line that keepLine lets through passed the noise-keyword check. -/
theorem keepLine_noise_free {command agentLabel normalized n : List Char}
    (h : keepLine command agentLabel normalized = some n) :
    noiseKeywords.any (fun kw => containsSub kw (pyLower n)) = false := by
  unfold keepLine at h
  split_ifs at h
  split at h
  · simp at h
  · rename_i m hpa
    split_ifs at h with hg hd hn
    obtain rfl : m = n := by simpa using h
    simpa using hn

/-- Every line of the filter output is free of every noise keyword,
whatever the seen set. -/
theorem cleanAux_noise_free (command agentLabel : List Char) :
    ∀ (lines seen : List (List Char)) (s : List Char),
      s ∈ cleanAux command agentLabel seen lines →
      noiseKeywords.any (fun kw => containsSub kw (pyLower s)) = false := by
  intro lines
  induction lines with
  | nil =>
    intro seen s h
    rw [cleanAux] at h
    simp at h
  | cons raw rest ih =>
    intro seen s h
    rw [cleanAux] at h
    split_ifs at h
    · exact ih seen s h
    · exact ih seen s h
    · split at h
      · exact ih seen s h
      · rename_i n hk
        split_ifs at h
        · exact ih seen s h
        · rcases List.mem_cons.mp h with hs | hs
          · subst hs
            exact keepLine_noise_free hk
          · exact ih (n :: seen) s hs

/-! ## Orchestration loop (_send_to_claude1_with_orchestration, lines
673-840)

The loop is modelled as a function of an environment that supplies, for
the n-th send_command call, whether the send succeeded and what raw text
the response-collection loop then accumulated.  Each iteration sends to
the current agent (which is always the primary: the only reassignment in
the source sets it back to claude1), cleans the reply, records it, checks
completion before delegation, and on a delegation to claude-2 performs a
second send inside the same iteration. -/

/-- The environment of one orchestration run: send results and collected
raw replies, indexed by the send counter. -/
structure LoopEnv where
  sendOk : Nat → Bool
  reply : Nat → List Char

/-- Lines 739-742: normalize CR/LF, split, filter; if the filter removed
every line, fall back to the raw unfiltered output, else join. -/
def cleanedReply (command raw label : List Char) : List Char :=
  if (cleanOutputLines command (splitOnNL (replCR (replCRLF raw))) label).isEmpty
  then raw
  else joinNL (cleanOutputLines command (splitOnNL (replCR (replCRLF raw))) label)

/-- Line 828: the wrapper fed back to the primary around claude-2's
cleaned response. -/
def respWrapper (resp : List Char) : List Char :=
  chars "Claude-2 的响应：\n\n" ++ resp ++ chars "\n\n请继续处理。"

/-- How one loop iteration ended. -/
inductive IterOut
  | sendFail
  | noResponse
  | completed (finalResult : List Char)
  | routed (nextCmd : List Char)
  | delegSendFail
  | unavailable
  | noMarker
deriving DecidableEq, Repr

/-- Number of send_command calls the iteration made. -/
def sendsOf : IterOut → Nat
  | .routed _ => 2
  | .delegSendFail => 2
  | _ => 1

/-- Outcome of one iteration together with the cleaned reply recorded to
the conversation history for the current agent (line 746), when one was. -/
structure IterResult where
  out : IterOut
  recorded : Option (List Char)
deriving DecidableEq, Repr

/-- One iteration of the loop body (lines 710-837): send, collect, clean,
record, completion check, then delegation parsing and routing.  The
target check is literally target == claude-2 and the claude2 agent object
being present (line 777); any other parsed target stops the loop. -/
def orchIterate (env : LoopEnv) (c2Present : Bool) (c1name : List Char)
    (sendIdx : Nat) (cmd : List Char) : IterResult :=
  if env.sendOk sendIdx = false then ⟨.sendFail, none⟩
  else if pyStrip (env.reply sendIdx) = [] then ⟨.noResponse, none⟩
  else
    if isComplete (cleanedReply cmd (env.reply sendIdx) c1name) then
      ⟨.completed (extractFinalResult
          (cleanedReply cmd (env.reply sendIdx) c1name)),
        some (cleanedReply cmd (env.reply sendIdx) c1name)⟩
    else
      match parseAgentCall (cleanedReply cmd (env.reply sendIdx) c1name) with
      | none => ⟨.noMarker, some (cleanedReply cmd (env.reply sendIdx) c1name)⟩
      | some (target, task) =>
        if target = chars "claude-2" ∧ c2Present = true then
          if env.sendOk (sendIdx + 1) = false then
            ⟨.delegSendFail, some (cleanedReply cmd (env.reply sendIdx) c1name)⟩
          else
            ⟨.routed (respWrapper (cleanedReply task (env.reply (sendIdx + 1))
                (chars "claude-2"))),
              some (cleanedReply cmd (env.reply sendIdx) c1name)⟩
        else ⟨.unavailable, some (cleanedReply cmd (env.reply sendIdx) c1name)⟩

/-- Result of a whole orchestration run: the final loop counter, the total
number of send_command calls, and the completion result if one was
presented. -/
structure RunOut where
  loopCount : Nat
  sends : Nat
  finalResult : Option (List Char)
deriving DecidableEq, Repr

/-- The while loop with counter: fuel is the number of iterations the
condition loop_count < max_loops still allows, so the initial fuel is the
loop budget.  Only a routed delegation continues the loop; every other
outcome breaks. -/
def orchGo (env : LoopEnv) (c2Present : Bool) (c1name : List Char) :
    Nat → Nat → Nat → List Char → RunOut
  | 0, lc, si, _ => ⟨lc, si, none⟩
  | fuel + 1, lc, si, cmd =>
    match (orchIterate env c2Present c1name si cmd).out with
    | .routed nextCmd => orchGo env c2Present c1name fuel (lc + 1) (si + 2) nextCmd
    | .completed f => ⟨lc + 1, si + 1, some f⟩
    | o => ⟨lc + 1, si + sendsOf o, none⟩

/-- A whole orchestration run for one top-level input. -/
def orchRun (env : LoopEnv) (c2Present : Bool) (c1name initialCmd : List Char)
    (maxLoops : Nat) : RunOut :=
  orchGo env c2Present c1name maxLoops 0 0 initialCmd

/-- Lines 839-840: the budget-exhausted warning is printed exactly when
the final loop counter reached the budget. -/
def budgetWarned (r : RunOut) (maxLoops : Nat) : Bool :=
  decide (maxLoops ≤ r.loopCount)

theorem sendsOf_le_two (o : IterOut) : sendsOf o ≤ 2 := by
  cases o <;> simp [sendsOf]

/-- Each iteration makes at most two sends and advances the counter by
one. -/
theorem orchGo_bounds (env : LoopEnv) (c2Present : Bool) (c1name : List Char) :
    ∀ (fuel lc si : Nat) (cmd : List Char),
      (orchGo env c2Present c1name fuel lc si cmd).sends ≤ si + 2 * fuel ∧
      (orchGo env c2Present c1name fuel lc si cmd).loopCount ≤ lc + fuel := by
  intro fuel
  induction fuel with
  | zero => intro lc si cmd; simp [orchGo]
  | succ fuel ih =>
    intro lc si cmd
    rw [orchGo]
    split
    · rename_i nextCmd _
      refine ⟨le_trans (ih (lc + 1) (si + 2) nextCmd).1 (by omega),
        le_trans (ih (lc + 1) (si + 2) nextCmd).2 (by omega)⟩
    · exact ⟨by show si + 1 ≤ si + 2 * (fuel + 1); omega,
        by show lc + 1 ≤ lc + (fuel + 1); omega⟩
    · have h2 := sendsOf_le_two (orchIterate env c2Present c1name si cmd).out
      exact ⟨by show si + sendsOf (orchIterate env c2Present c1name si cmd).out
                  ≤ si + 2 * (fuel + 1); omega,
        by show lc + 1 ≤ lc + (fuel + 1); omega⟩

/-! ## Claim C1: loop budget versus outbound sends -/

/-- A run in which the primary delegates on its first reply. -/
def envC1 : LoopEnv :=
  ⟨fun _ => true,
   fun i => if i = 0 then chars "@claude-2: ping" else chars "pong"⟩

/-- C1, counterexample.  With budget B = 1 the single iteration already
performs two send_command calls (one to the primary, one routed to
claude-2), so the loop does not perform at most B outbound sends. -/
theorem c1_budget_exceeded_by_delegation :
    (orchRun envC1 true (chars "claude-1") (chars "hello") 1).sends = 2 ∧
      ¬ ((orchRun envC1 true (chars "claude-1") (chars "hello") 1).sends ≤ 1) := by
  decide

/-- C1, amended.  For every run with loop budget B the loop performs at
most 2B outbound send_command calls (per iteration one send to the
current agent plus at most one delegated send), executes at most B
iterations, and when the budget is reached without a completion marker it
prints the budget-exhausted warning and stops. -/
theorem c1_sends_at_most_double_budget (env : LoopEnv) (c2Present : Bool)
    (c1name cmd : List Char) (maxLoops : Nat) :
    (orchRun env c2Present c1name cmd maxLoops).sends ≤ 2 * maxLoops ∧
    (orchRun env c2Present c1name cmd maxLoops).loopCount ≤ maxLoops ∧
    ((orchRun env c2Present c1name cmd maxLoops).finalResult = none →
      (orchRun env c2Present c1name cmd maxLoops).loopCount = maxLoops →
      budgetWarned (orchRun env c2Present c1name cmd maxLoops) maxLoops
        = true) := by
  have hb := orchGo_bounds env c2Present c1name maxLoops 0 0 cmd
  refine ⟨by simpa [orchRun] using hb.1, by simpa [orchRun] using hb.2, ?_⟩
  intro _ hlc
  simp [budgetWarned, hlc]

/-- C1, witness for the amended theorem: the delegation ping-pong run hits
the budget without completing and the warning fires. -/
theorem c1_sends_at_most_double_budget_witness :
    (orchRun envC1 true (chars "claude-1") (chars "hello") 1).finalResult
        = none ∧
      (orchRun envC1 true (chars "claude-1") (chars "hello") 1).loopCount
        = 1 ∧
      budgetWarned (orchRun envC1 true (chars "claude-1") (chars "hello") 1) 1
        = true :=
  ⟨by decide, by decide,
    (c1_sends_at_most_double_budget envC1 true (chars "claude-1")
      (chars "hello") 1).2.2 (by decide) (by decide)⟩

/-! ## Claim C4: completion beats delegation -/

/-- C4.  If the cleaned reply of an iteration contains a completion
marker, the iteration ends the loop presenting the extracted final result
and makes no delegated send, whatever delegation markers are present. -/
theorem c4_completion_beats_delegation (env : LoopEnv) (c2Present : Bool)
    (c1name : List Char) (sendIdx : Nat) (cmd : List Char)
    (hsend : env.sendOk sendIdx = true)
    (hne : ¬ pyStrip (env.reply sendIdx) = [])
    (hdone : isComplete (cleanedReply cmd (env.reply sendIdx) c1name)
      = true) :
    orchIterate env c2Present c1name sendIdx cmd =
      ⟨.completed (extractFinalResult
          (cleanedReply cmd (env.reply sendIdx) c1name)),
        some (cleanedReply cmd (env.reply sendIdx) c1name)⟩ ∧
    sendsOf (orchIterate env c2Present c1name sendIdx cmd).out = 1 := by
  have h1 : orchIterate env c2Present c1name sendIdx cmd =
      ⟨.completed (extractFinalResult
          (cleanedReply cmd (env.reply sendIdx) c1name)),
        some (cleanedReply cmd (env.reply sendIdx) c1name)⟩ := by
    rw [orchIterate, if_neg (by simp [hsend]), if_neg hne, if_pos hdone]
  exact ⟨h1, by rw [h1]; rfl⟩

/-- A reply carrying both a completion marker and a delegation marker. -/
def envC4 : LoopEnv :=
  ⟨fun _ => true, fun _ => chars "done [COMPLETE]\n@claude-2: more"⟩

/-- C4, witness at a reply containing both markers. -/
theorem c4_completion_beats_delegation_witness :
    envC4.sendOk 0 = true ∧
      ¬ pyStrip (envC4.reply 0) = [] ∧
      isComplete (cleanedReply (chars "go") (envC4.reply 0)
        (chars "claude-1")) = true ∧
      (orchIterate envC4 true (chars "claude-1") 0 (chars "go") =
        ⟨.completed (extractFinalResult
            (cleanedReply (chars "go") (envC4.reply 0) (chars "claude-1"))),
          some (cleanedReply (chars "go") (envC4.reply 0)
            (chars "claude-1"))⟩ ∧
      sendsOf (orchIterate envC4 true (chars "claude-1") 0
        (chars "go")).out = 1) :=
  ⟨by decide, by decide, by decide,
    c4_completion_beats_delegation envC4 true (chars "claude-1") 0
      (chars "go") (by decide) (by decide) (by decide)⟩

/-! ## Claim C6: delegations with empty task text -/

/-- A reply whose only line is noise, so the filter empties it and the
raw text with trailing whitespace is what gets parsed. -/
def envC6 : LoopEnv :=
  ⟨fun _ => true,
   fun i => if i = 0 then chars "token @claude-2: \n" else chars "ok"⟩

/-- C6, counterexample.  A delegation marker whose task text is
whitespace-only parses (the whitespace-star backtracks and the lazy group
captures a whitespace character), the trimmed task is empty, and the loop
still routes it: send_command is called on claude-2, refuting that such
delegations are ignored with no command sent. -/
theorem c6_empty_task_delegation_routed :
    parseAgentCall (cleanedReply (chars "go") (envC6.reply 0)
        (chars "claude-1")) = some (chars "claude-2", []) ∧
      (orchIterate envC6 true (chars "claude-1") 0 (chars "go")).out =
        .routed (respWrapper (cleanedReply [] (chars "ok")
          (chars "claude-2"))) ∧
      sendsOf (orchIterate envC6 true (chars "claude-1") 0
        (chars "go")).out = 2 := by
  decide

/-- A reply whose delegation marker has no characters at all after the
colon. -/
def envC6b : LoopEnv := ⟨fun _ => true, fun _ => chars "@claude-2:"⟩

/-- C6, amended.  A delegation marker followed by no character at all
fails the regex (the lazy group needs at least one character), so the
iteration stops with the no-marker warning and a single send; but a
delegation marker followed only by whitespace matches with an empty
trimmed task and the loop routes it, performing the second send with the
empty command. -/
theorem c6_empty_task_behaviour :
    (orchIterate envC6b true (chars "claude-1") 0 (chars "go")).out
        = .noMarker ∧
      sendsOf (orchIterate envC6b true (chars "claude-1") 0
        (chars "go")).out = 1 ∧
      (orchIterate envC6 true (chars "claude-1") 0 (chars "go")).out =
        .routed (respWrapper (cleanedReply [] (chars "ok")
          (chars "claude-2"))) := by
  decide

/-! ## Claim C8: the token noise keyword and the raw fallback -/

/-- A reply whose only line contains the token keyword, so the filter
removes everything. -/
def envC8 : LoopEnv := ⟨fun _ => true, fun _ => chars "Token usage: 42\n"⟩

/-- C8, counterexample.  A reply whose only line contains the word token
is emptied by the filter, so line 742 falls back to the raw unfiltered
output: the token-bearing text is the cleaned reply the iteration records
to history and hands to the marker parsing, refuting the claim that every
line containing token is removed from the cleaned reply used for display,
history and marker parsing. -/
theorem c8_token_reaches_history_via_fallback :
    containsSub (chars "token") (pyLower (chars "Token usage: 42\n"))
        = true ∧
      (orchIterate envC8 true (chars "claude-1") 0 (chars "go")).recorded =
        some (chars "Token usage: 42\n") := by
  decide

/-- C8, amended.  The bare word token is one of the default noise
keywords and the filter drops every line whose lowercased text contains
any noise keyword as a case-insensitive substring, so no line of the
filter's output contains token in any letter case; however, when the
filter has removed every line, the loop uses the raw unfiltered output as
the cleaned reply, through which token-bearing text still reaches
display, history and marker parsing. -/
theorem c8_token_filtered_unless_fallback :
    chars "token" ∈ noiseKeywords ∧
    (∀ (command agentLabel s : List Char) (lines : List (List Char)),
      s ∈ cleanOutputLines command lines agentLabel →
      containsSub (chars "token") (pyLower s) = false) ∧
    (∀ (cmd raw label : List Char),
      cleanOutputLines cmd (splitOnNL (replCR (replCRLF raw))) label = [] →
      cleanedReply cmd raw label = raw) := by
  refine ⟨by decide, ?_, ?_⟩
  · intro command agentLabel s lines h
    have hall := cleanAux_noise_free command agentLabel lines [] s h
    have hforall := List.any_eq_false.mp hall
    simpa using hforall (chars "token") (by decide)
  · intro cmd raw label hempty
    rw [cleanedReply, if_pos (by simp [hempty])]

/-- C8, witness: both halves of the amended theorem at concrete inputs. -/
theorem c8_token_filtered_unless_fallback_witness :
    (chars "hello" ∈
        cleanOutputLines (chars "cmd") [chars "hello"] (chars "claude-1") ∧
      containsSub (chars "token") (pyLower (chars "hello")) = false) ∧
    (cleanOutputLines (chars "go")
        (splitOnNL (replCR (replCRLF (chars "Token usage: 42\n"))))
        (chars "claude-1") = [] ∧
      cleanedReply (chars "go") (chars "Token usage: 42\n")
        (chars "claude-1") = chars "Token usage: 42\n") :=
  ⟨⟨by decide,
    c8_token_filtered_unless_fallback.2.1 (chars "cmd") (chars "claude-1")
      (chars "hello") [chars "hello"] (by decide)⟩,
   ⟨by decide,
    c8_token_filtered_unless_fallback.2.2 (chars "go")
      (chars "Token usage: 42\n") (chars "claude-1") (by decide)⟩⟩

/-! ## Claim C9: fallback to the raw output when filtering empties it -/

/-- C9.  When the line filter removes every line of a reply, the loop
takes the raw unfiltered output as the cleaned reply; the iteration then
records exactly that raw text to history, and the same text is what the
completion and delegation parsing in orchIterate receives. -/
theorem c9_raw_fallback_recorded (cmd raw label : List Char)
    (hempty : cleanOutputLines cmd (splitOnNL (replCR (replCRLF raw))) label
      = []) :
    cleanedReply cmd raw label = raw ∧
    ∀ (env : LoopEnv) (c2Present : Bool) (sendIdx : Nat),
      env.sendOk sendIdx = true → env.reply sendIdx = raw →
      ¬ pyStrip raw = [] →
      (orchIterate env c2Present label sendIdx cmd).recorded = some raw := by
  have hcr : cleanedReply cmd raw label = raw := by
    rw [cleanedReply, if_pos (by simp [hempty])]
  refine ⟨hcr, ?_⟩
  intro env c2Present sendIdx hs hr hne
  rw [orchIterate, if_neg (by simp [hs]), if_neg (by rw [hr]; exact hne)]
  rw [hr, hcr]
  split
  · rfl
  · split
    · rfl
    · split
      · split
        · rfl
        · rfl
      · rfl

/-- A reply consisting only of noise lines. -/
def envC9 : LoopEnv := ⟨fun _ => true, fun _ => chars "? for shortcuts\n"⟩

/-- C9, witness: a pure-noise reply is emptied by the filter and the raw
text is recorded. -/
theorem c9_raw_fallback_recorded_witness :
    cleanOutputLines (chars "go")
        (splitOnNL (replCR (replCRLF (chars "? for shortcuts\n"))))
        (chars "claude-1") = [] ∧
      (orchIterate envC9 true (chars "claude-1") 0 (chars "go")).recorded =
        some (chars "? for shortcuts\n") :=
  ⟨by decide,
    (c9_raw_fallback_recorded (chars "go") (chars "? for shortcuts\n")
      (chars "claude-1") (by decide)).2 envC9 true 0 (by decide) rfl
      (by decide)⟩

/-! ## Agent runtime state (class CLIAgent, lines 50-443)

The mutable per-agent state and the operations on it, with the
environment (child liveness probes, EIO occurrence, bytes read) passed as
arguments.  closeCount counts os.close calls on the PTY master fd; no
operation in orchestrator_enhanced.py ever closes it. -/

/-- The runtime state fields of a CLIAgent (pid and fd abstracted to
presence). -/
structure AgentState where
  pidSet : Bool
  fdSet : Bool
  process_running : Bool
  pty_closed : Bool
  buffer : List Char
  heartbeat_running : Bool
  closeCount : Nat
deriving DecidableEq, Repr

/-- The state set up by CLIAgent.__init__ (lines 64-75). -/
def initState : AgentState := ⟨false, false, false, false, [], false, 0⟩

/-- start() (lines 77-246): forked says whether the command existed and
pty.fork ran; ok says whether the child survived the startup drains; the
banner is whatever start drained into the buffer; the heartbeat quirk
holds for the codex command.  Failure paths return False without touching
process_running or pty_closed. -/
def startStep (forked ok hbQuirk : Bool) (banner : List Char)
    (s : AgentState) : AgentState :=
  if forked = false then s
  else if ok = false then
    {s with pidSet := true, fdSet := true, buffer := s.buffer ++ banner}
  else
    {s with
      pidSet := true
      fdSet := true
      buffer := s.buffer ++ banner
      process_running := true
      heartbeat_running := hbQuirk}

/-- is_running() (lines 353-364): a pid-less agent reports False without
mutation; a dead child flips process_running to false. -/
def isRunningStep (alive : Bool) (s : AgentState) : AgentState × Bool :=
  if s.pidSet = false then (s, false)
  else if alive = true then (s, true)
  else ({s with process_running := false}, false)

/-- A write to the PTY master or the short sleep between LF and CR. -/
inductive WriteEv
  | bytes (text : List Char)
  | pause50ms
deriving DecidableEq, Repr

/-- send_command(command) (lines 248-280): refuse when the fd is unset or
the agent is not running; otherwise write the text bytes when non-empty,
then LF, and for the claude and gemini commands also a 50 ms pause and a
CR.  Returns the updated state, the boolean result, and the writes. -/
def sendCommandStep (alive : Bool) (cliCommand command : List Char)
    (s : AgentState) : AgentState × Bool × List WriteEv :=
  if s.fdSet = false then (s, false, [])
  else if s.pidSet = false then (s, false, [])
  else if alive = false then ({s with process_running := false}, false, [])
  else
    (s, true,
      (if command = [] then [] else [WriteEv.bytes command]) ++
      (if cliCommand = chars "claude" ∨ cliCommand = chars "gemini" then
        [WriteEv.bytes ['\n'], WriteEv.pause50ms, WriteEv.bytes ['\r']]
      else [WriteEv.bytes ['\n']]))

/-- read_output(timeout) (lines 282-351): bail out on an unset fd before
draining; drain the out-of-band buffer; return it alone when the closed
latch is set or the first liveness check fails (the latter flips
process_running); otherwise append the bytes read this call, and on EIO
with a failed second liveness check latch pty_closed and clear
process_running together; non-empty results pass through the sanitizer. -/
def readStep (alive1 eio alive2 : Bool) (chunk : List Char)
    (s : AgentState) : AgentState × List Char :=
  if s.fdSet = false then (s, [])
  else if s.pty_closed = true then ({s with buffer := []}, s.buffer)
  else if ¬ (s.pidSet = true ∧ alive1 = true) then
    ({s with buffer := [], process_running := false}, s.buffer)
  else if eio = true ∧ ¬ (s.pidSet = true ∧ alive2 = true) then
    ({s with
        buffer := []
        process_running := false
        pty_closed := true},
      if s.buffer ++ chunk = [] then []
      else sanitizeOutput (s.buffer ++ chunk))
  else
    ({s with buffer := []},
      if s.buffer ++ chunk = [] then []
      else sanitizeOutput (s.buffer ++ chunk))

/-- One tick of the heartbeat thread body (lines 366-405): with an fd and
no closed latch it writes a newline and appends whatever it drained to the
buffer; it never touches the flags. -/
def heartbeatStep (resp : List Char) (s : AgentState) : AgentState :=
  if s.fdSet = true ∧ s.pty_closed = false then
    {s with buffer := s.buffer ++ resp}
  else s

/-- terminate() (lines 415-443): a pid-less agent returns at once;
otherwise the heartbeat is stopped, SIGTERM is sent, liveness is polled
for up to two seconds, SIGKILL follows if needed, and the finally block
clears process_running.  No path closes the master fd: closeCount is
untouched. -/
def terminateStep (s : AgentState) : AgentState :=
  if s.pidSet = false then s
  else {s with heartbeat_running := false, process_running := false}

/-- The operations on a started agent's runtime state, with their
environment inputs. -/
inductive AgentOp
  | isRun (alive : Bool)
  | send (alive : Bool) (cliCommand command : List Char)
  | read (alive1 eio alive2 : Bool) (chunk : List Char)
  | heartbeat (resp : List Char)
  | term
deriving DecidableEq, Repr

/-- Apply one operation, keeping the state component. -/
def applyOp (s : AgentState) : AgentOp → AgentState
  | .isRun alive => (isRunningStep alive s).1
  | .send alive cli cmd => (sendCommandStep alive cli cmd s).1
  | .read a1 eio a2 chunk => (readStep a1 eio a2 chunk s).1
  | .heartbeat resp => heartbeatStep resp s
  | .term => terminateStep s

/-- Apply a sequence of operations. -/
def runOps (s : AgentState) (ops : List AgentOp) : AgentState :=
  ops.foldl applyOp s

/-- An agent lifetime: the freshly constructed state, one start (the
lifecycle has no restart), then any sequence of runtime operations. -/
def lifecycleRun (forked ok hbQuirk : Bool) (banner : List Char)
    (ops : List AgentOp) : AgentState :=
  runOps (startStep forked ok hbQuirk banner initState) ops

/-! ## Claim C5: the PTY master fd and terminate() -/

theorem applyOp_closeCount (s : AgentState) (op : AgentOp) :
    (applyOp s op).closeCount = s.closeCount := by
  cases op <;>
    simp only [applyOp, isRunningStep, sendCommandStep, readStep,
      heartbeatStep, terminateStep] <;>
    split_ifs <;> rfl

theorem runOps_closeCount (ops : List AgentOp) :
    ∀ s : AgentState, (runOps s ops).closeCount = s.closeCount := by
  induction ops with
  | nil => intro s; rfl
  | cons op rest ih =>
    intro s
    have : runOps s (op :: rest) = runOps (applyOp s op) rest := rfl
    rw [this, ih, applyOp_closeCount]

/-- C5.  Over any agent lifetime — construction, start, and any sequence
of runtime operations including terminate — the PTY master fd is closed
zero times: terminate() stops the heartbeat, signals the child and clears
process_running, but no os.close call exists anywhere in
orchestrator_enhanced.py, contradicting the claim that the fd is closed
exactly once during terminate.  (The sibling orchestrator.py does close
the fd in its terminate, which is the intended behaviour.) -/
theorem c5_fd_never_closed (forked ok hbQuirk : Bool) (banner : List Char)
    (ops : List AgentOp) :
    (lifecycleRun forked ok hbQuirk banner ops).closeCount = 0 := by
  rw [lifecycleRun, runOps_closeCount]
  unfold startStep initState
  split_ifs <;> rfl

/-! ## Claim C7: pty_closed implies not process_running -/

theorem applyOp_inv (s : AgentState) (op : AgentOp)
    (h : s.pty_closed = true → s.process_running = false) :
    (applyOp s op).pty_closed = true →
      (applyOp s op).process_running = false := by
  cases op <;>
    simp only [applyOp, isRunningStep, sendCommandStep, readStep,
      heartbeatStep, terminateStep] <;>
    split_ifs <;> simp_all

theorem runOps_inv (ops : List AgentOp) :
    ∀ s : AgentState, (s.pty_closed = true → s.process_running = false) →
      (runOps s ops).pty_closed = true →
        (runOps s ops).process_running = false := by
  induction ops with
  | nil => intro s h; exact h
  | cons op rest ih =>
    intro s h
    exact ih (applyOp s op) (applyOp_inv s op h)

/-- C7.  After the constructor, a start, and any sequence of runtime
operations (send_command, read_output, is_running, heartbeat ticks,
terminate), the invariant holds: a set pty_closed latch implies
process_running is false.  The only assignment setting the latch (the EIO
path of read_output) clears process_running in the same step, and only
start sets process_running, from a state whose latch is unset. -/
theorem c7_pty_closed_implies_stopped (forked ok hbQuirk : Bool)
    (banner : List Char) (ops : List AgentOp)
    (h : (lifecycleRun forked ok hbQuirk banner ops).pty_closed = true) :
    (lifecycleRun forked ok hbQuirk banner ops).process_running = false := by
  refine runOps_inv ops (startStep forked ok hbQuirk banner initState) ?_ h
  unfold startStep initState
  split_ifs <;> simp

/-- C7, witness: a started agent that hits EIO with a dead child has the
latch set and is indeed stopped. -/
theorem c7_pty_closed_implies_stopped_witness :
    (lifecycleRun true true false []
        [AgentOp.read true true false []]).pty_closed = true ∧
      (lifecycleRun true true false []
        [AgentOp.read true true false []]).process_running = false :=
  ⟨by decide,
    c7_pty_closed_implies_stopped true true false []
      [AgentOp.read true true false []] (by decide)⟩

/-! ## Claim C10: sending the empty command -/

/-- C10.  On an initialized (fd set), running agent, send_command of the
empty string succeeds: it writes no text bytes (the empty encoded command
is falsy) but still writes the LF terminator, and for the claude and
gemini commands also the 50 ms pause followed by CR. -/
theorem c10_empty_send_writes_terminator (alive : Bool)
    (cliCommand : List Char) (s : AgentState) (hfd : s.fdSet = true)
    (hpid : s.pidSet = true) (halive : alive = true) :
    sendCommandStep alive cliCommand [] s =
      (s, true,
        if cliCommand = chars "claude" ∨ cliCommand = chars "gemini" then
          [WriteEv.bytes ['\n'], WriteEv.pause50ms, WriteEv.bytes ['\r']]
        else [WriteEv.bytes ['\n']]) := by
  rw [sendCommandStep, if_neg (by simp [hfd]), if_neg (by simp [hpid]),
    if_neg (by simp [halive])]
  simp

/-- A started, running agent driving the claude command. -/
def sC10 : AgentState := ⟨true, true, true, false, [], false, 0⟩

/-- C10, witness at the claude command. -/
theorem c10_empty_send_writes_terminator_witness :
    sC10.fdSet = true ∧ sC10.pidSet = true ∧
      sendCommandStep true (chars "claude") [] sC10 =
        (sC10, true,
          [WriteEv.bytes ['\n'], WriteEv.pause50ms, WriteEv.bytes ['\r']]) :=
  ⟨by decide, by decide,
    (c10_empty_send_writes_terminator true (chars "claude") sC10
      (by decide) (by decide) rfl).trans (by decide)⟩

end Orchestrator